import Mathlib

/-!
Verification development for the portfolio-api repository.

The Python sources (`github_client.py`, `ai_assistant.py`, `function_app.py`)
are shallowly embedded below.  Pure data processing is translated into Lean
functions; effectful code (HTTP requests, the Azure blob cache, the clock)
is made explicit: the blob store is a function `String → Option (Blob α)`
threaded through each operation, the clock is a `Nat` parameter, and the
upstream HTTP responses are supplied as an explicit event trace.  Fallible
Python code (statements that can raise) is modelled with `Except`/`Option`.
-/

namespace Portfolio

/-! ### Blob-store cache (GitHubClient._cache_key / _get_from_cache / _save_to_cache)

A stored blob is either a well-formed cache record (a JSON object with
`data` and `expires_at` fields, written by `_save_to_cache`), a readable
record lacking the `expires_at` key, or an unreadable/corrupt blob (one on
which `json.loads` raises).  `datetime.now()` is the `now : Nat` parameter.
-/

inductive Blob (α : Type) where
  | wellFormed (data : α) (expiresAt : Nat)
  | noExpiry (data : α)
  | corrupt
deriving DecidableEq

def Store (α : Type) : Type := String → Option (Blob α)

def storeErase {α : Type} (s : Store α) (k : String) : Store α :=
  fun k' => if k' = k then none else s k'

def storeInsert {α : Type} (s : Store α) (k : String) (b : Blob α) : Store α :=
  fun k' => if k' = k then some b else s k'

/-- Embedding of `GitHubClient._cache_key`: `endpoint.replace('/', '_')`.
Replacing the single character `/` by `_` is a character-wise map. -/
def cache_key (endpoint : String) : String :=
  String.mk (endpoint.data.map (fun c => if c = '/' then '_' else c))

/-- Embedding of `GitHubClient._get_from_cache`.  `enabled` is the guard
`self.blob_service_client and self.use_cache`.  Returns the cached payload
(if present and unexpired) together with the post-read store.  A well-formed
entry with `expires_at > now` is a hit; otherwise the blob is deleted.  An
entry whose JSON parses but has no `expires_at` key is deleted as well.  A
corrupt blob raises inside the `try`, the exception is caught, and `None` is
returned with the store untouched. -/
def get_from_cache {α : Type} (enabled : Bool) (store : Store α)
    (endpoint : String) (now : Nat) : Option α × Store α :=
  if enabled then
    let key := cache_key endpoint
    match store key with
    | none => (none, store)
    | some (.wellFormed d e) =>
        if now < e then (some d, store) else (none, storeErase store key)
    | some (.noExpiry _) => (none, storeErase store key)
    | some .corrupt => (none, store)
  else (none, store)

/-- Embedding of `GitHubClient._save_to_cache` (the successful upload path):
stores `{'data': data, 'expires_at': now + ttl}` under `_cache_key endpoint`
and returns `True`; with caching disabled it stores nothing and returns
`False`. -/
def save_to_cache {α : Type} (enabled : Bool) (store : Store α)
    (endpoint : String) (d : α) (ttl now : Nat) : Bool × Store α :=
  if enabled then
    (true, storeInsert store (cache_key endpoint) (.wellFormed d (now + ttl)))
  else (false, store)

/-! ### The request executor (GitHubClient.make_request)

A `ReqEvent` is what one loop iteration observes: either `requests.request`
raised (`connError` / `otherError`), or it returned a response with a status
code, the optional `X-RateLimit-Remaining` header, the
`X-RateLimit-Reset` header (absent is merged with 0, as in
`headers.get('X-RateLimit-Reset', 0)`), the raw text body, and
`asJson = some j` exactly when `response.json()` succeeds.  The trace
`events : Nat → ReqEvent` gives the event observed by iteration `i`. -/

inductive Json where
  | null
  | bool (b : Bool)
  | num (n : Int)
  | str (s : String)
deriving DecidableEq

deriving instance DecidableEq for Except

inductive ExcKind where
  | conn
  | other
deriving DecidableEq

/-- Value returned to the caller of `make_request`: a parsed JSON payload,
a raw/unparsable text body, or Python `None`. -/
inductive RVal where
  | jsonV (j : Json)
  | textV (t : String)
  | noneV
deriving DecidableEq

/-- `response.json()` when it parses, else `response.text`. -/
def jsonOrText (aj : Option Json) (t : String) : RVal :=
  match aj with
  | some j => RVal.jsonV j
  | none => RVal.textV t

inductive ReqEvent where
  | response (status : Nat) (rlRemaining : Option Nat) (rlReset : Nat)
      (text : String) (asJson : Option Json)
  | connError
  | otherError
deriving DecidableEq

/-- The rate-limit branch of `make_request`: status 403, the
`X-RateLimit-Remaining` header present with value 0, and the computed wait
`max(0, reset - now)` strictly between 0 and 60 — exactly the condition
under which the code sleeps and executes `continue`. -/
def rlContinue (status : Nat) (rr : Option Nat) (reset now : Nat) : Bool :=
  status == 403 &&
    (match rr with
     | some r => r == 0 && decide (0 < reset - now) && decide (reset - now < 60)
     | none => false)

structure ReqCtx where
  enabled : Bool
  selfUseCache : Bool
deriving DecidableEq

def cacheOn (ctx : ReqCtx) : Bool := ctx.enabled && ctx.selfUseCache

/-- Python `str.upper()` (character-wise). -/
def pyUpper (s : String) : String := String.mk (s.data.map Char.toUpper)

/-- The `for attempt in range(retries)` loop of `make_request`.  The first
`Nat` argument is the number of loop iterations left, the second the index
into the event trace; `le` is `last_exception`.  Every iteration — whether
it ends in a rate-limit `continue`, a caught request exception, or a
returned response — consumes one slot.  On a 200 response of a
cache-eligible request the result is written to the cache with the default
TTL of 3600 seconds.  When the loop exhausts its slots the function raises,
carrying `str(last_exception)`. -/
def attemptLoop (ctx : ReqCtx) (cacheElig acceptRaw : Bool) (endpoint : String)
    (now : Nat) (events : Nat → ReqEvent) :
    Nat → Nat → Store RVal → Option ExcKind →
      Except (Option ExcKind) RVal × Store RVal
  | 0, _, store, le => (.error le, store)
  | n + 1, i, store, le =>
    match events i with
    | .connError =>
        attemptLoop ctx cacheElig acceptRaw endpoint now events n (i + 1) store
          (some .conn)
    | .otherError =>
        attemptLoop ctx cacheElig acceptRaw endpoint now events n (i + 1) store
          (some .other)
    | .response status rr reset text aj =>
        if rlContinue status rr reset now then
          attemptLoop ctx cacheElig acceptRaw endpoint now events n (i + 1) store le
        else if status == 200 && cacheElig then
          let result := if acceptRaw then RVal.textV text else jsonOrText aj text
          (.ok result, (save_to_cache (cacheOn ctx) store endpoint result 3600 now).2)
        else if acceptRaw then
          (.ok (if status == 200 then RVal.textV text else RVal.noneV), store)
        else
          (.ok (jsonOrText aj text), store)

/-- Embedding of `GitHubClient.make_request`.  `params` is carried for
signature fidelity: the code passes it to `requests.request` but it plays no
role in cache-key generation.  `useCache = none` is the default argument
`use_cache=None`, replaced by `self.use_cache`. -/
def make_request (ctx : ReqCtx) (method endpoint : String)
    (params : List (String × String)) (acceptRaw : Bool) (useCache : Option Bool)
    (store : Store RVal) (now : Nat) (events : Nat → ReqEvent) :
    Except (Option ExcKind) RVal × Store RVal :=
  let _ := params
  let uc := useCache.getD ctx.selfUseCache
  let cacheElig := pyUpper method == "GET" && uc
  if cacheElig then
    match get_from_cache (cacheOn ctx) store endpoint now with
    | (some v, s1) => (.ok v, s1)
    | (none, s1) => attemptLoop ctx cacheElig acceptRaw endpoint now events 3 0 s1 none
  else
    attemptLoop ctx cacheElig acceptRaw endpoint now events 3 0 store none

/-! ### Pagination (GitHubClient.get_user_repos)

The claims concern the cache-miss path: the `while True` loop that fetches
page 1, 2, … .  Each `make_request` call either raises (the `except` arm of
the loop, which breaks and returns the partial result) or produces a value
that is a JSON list or some non-list (`None`, an error object, …).  The
upstream pages are supplied as a list consumed in order; an exhausted list
stands for the upstream returning an empty page from then on.  Repository
items are opaque JSON payloads. -/

inductive PageVal where
  | listV (l : List Json)
  | nonList
deriving DecidableEq

/-- Embedding of the pagination loop of `GitHubClient.get_user_repos`
(cache-miss path).  `not repos or not isinstance(repos, list)` breaks before
extending; after extending, a page shorter than `per_page` breaks; a raised
exception breaks returning the repositories collected so far. -/
def get_user_repos (perPage : Nat) : List (Except Unit PageVal) → List Json
  | [] => []
  | .error _ :: _ => []
  | .ok .nonList :: _ => []
  | .ok (.listV []) :: _ => []
  | .ok (.listV l) :: rest =>
      l ++ (if l.length < perPage then [] else get_user_repos perPage rest)

/-! ### README section extraction
(GitHubClient.extract_readme_sections and the identical-by-pattern
ai_assistant.extract_readme_sections)

The Python code runs `re.search(pattern, content, re.DOTALL)` for five
patterns of the shape `## <Title>\s+(.*?)(?=##|\Z)`.  Semantics of such a
search: the scanner tries every start position left to right; at a
position the pattern matches iff the literal heading is present there and
is followed by at least one whitespace character.  The greedy `\s+` then
consumes the maximal whitespace run (the lazy group can always extend to
`\Z`, so no backtracking into `\s+` ever occurs), and the lazy `(.*?)`
with lookahead `(?=##|\Z)` captures up to the first occurrence of the
two-character sequence `##` at or after that point (or to the end).
Documents are `List Char`; `\s` and `str.strip()` use Python's whitespace
set (ASCII fragment). -/

def pyIsSpace (c : Char) : Bool :=
  c = ' ' || c = '\t' || c = '\n' || c = '\r' || c = '\x0b' || c = '\x0c'

/-- Python `str.strip()`. -/
def pyStrip (s : List Char) : List Char :=
  ((s.dropWhile pyIsSpace).reverse.dropWhile pyIsSpace).reverse

/-- Characters up to (excluding) the first occurrence of `##`. -/
def takeUntilHH : List Char → List Char
  | [] => []
  | [c] => [c]
  | a :: b :: r => if a = '#' && b = '#' then [] else a :: takeUntilHH (b :: r)

/-- Whether `##` occurs in the text. -/
def hasHH : List Char → Bool
  | [] => false
  | [_] => false
  | a :: b :: r => (a = '#' && b = '#') || hasHH (b :: r)

/-- One anchored attempt of the pattern `h\s+(.*?)(?=##|\Z)` at the start of
`s`: the heading literal must be present followed by at least one
whitespace character; the capture runs from the end of the maximal
whitespace run to the first `##` or the end. -/
def matchCapture (h s : List Char) : Option (List Char) :=
  if h.isPrefixOf s then
    match s.drop h.length with
    | [] => none
    | c :: rest =>
        if pyIsSpace c then some (takeUntilHH ((c :: rest).dropWhile pyIsSpace))
        else none
  else none

/-- `re.search`: leftmost start position at which the anchored attempt
succeeds. -/
def reSearch (h : List Char) : List Char → Option (List Char)
  | [] => matchCapture h []
  | c :: rest =>
    match matchCapture h (c :: rest) with
    | some cap => some cap
    | none => reSearch h rest

/-- The five `(pattern-heading, key)` pairs of `section_patterns`. -/
def section_patterns : List (List Char × String) :=
  [("## Technology Signature".data, "tech_stack"),
   ("## Demonstrated Competencies".data, "skills"),
   ("## System Architecture".data, "architecture"),
   ("## Project Structure".data, "structure"),
   ("## Deployment Workflow".data, "workflow")]

/-- Embedding of `extract_readme_sections`: for each pattern in order, run
the search and record the stripped capture under the pattern's key
(insertion-ordered dict as an association list).  The `github_client`
version's leading `if not readme_content: return {}` guard is included. -/
def extract_readme_sections (s : List Char) : List (String × List Char) :=
  if s = [] then []
  else
    section_patterns.filterMap (fun p =>
      match reSearch p.1 s with
      | some cap => some (p.2, pyStrip cap)
      | none => none)

/-- Whether a line is a second-level (and not deeper) Markdown heading. -/
def isH2Line (line : List Char) : Bool :=
  match line with
  | '#' :: '#' :: rest =>
    match rest with
    | '#' :: _ => false
    | _ => true
  | _ => false

/-- Split on newline characters. -/
def splitLinesCh : List Char → List (List Char)
  | [] => [[]]
  | c :: r =>
    let rest := splitLinesCh r
    if c = '\n' then [] :: rest
    else
      match rest with
      | [] => [[c]]
      | l :: ls => (c :: l) :: ls

/-- Join lines with newline characters. -/
def joinLinesCh : List (List Char) → List Char
  | [] => []
  | [l] => l
  | l :: ls => l ++ '\n' :: joinLinesCh ls

/-- Modelled from the spec: "capture all text from immediately after the
heading line up to (but not including) the next second-level heading or end
of document".  Finds the first line starting with the heading literal and
captures the following lines up to (excluding) the next second-level
heading line. -/
def specCaptureLines (h : List Char) : List (List Char) → Option (List Char)
  | [] => none
  | l :: rest =>
    if h.isPrefixOf l then
      some (joinLinesCh (rest.takeWhile (fun x => !isH2Line x)))
    else specCaptureLines h rest

/-- Modelled from the spec: section extraction whose captures terminate at
the next second-level Markdown heading (or end of document), trimmed. -/
def extract_readme_sectionsSpec (s : List Char) : List (String × List Char) :=
  if s = [] then []
  else
    section_patterns.filterMap (fun p =>
      match specCaptureLines p.1 (splitLinesCh s) with
      | some cap => some (p.2, pyStrip cap)
      | none => none)

/-! ### Aggregation in github_client (GitHubClient.get_processed_repos)

Repository items of the `get_user_repos` listing carry the fields the
processing loop reads (plus the owner login, present in the GitHub API
payload but never read by this function).  The per-repository detail
fetches — `get_repo_languages` and `get_readme`, each a `make_request` that
can raise — are supplied as oracles returning `Except`;
`extract_repo_metadata` catches every exception internally and is total. -/

structure RawRepoG where
  name : String
  ownerLogin : Option String
  description : Option String
  language : Option String
  topics : List String
  stargazersCount : Nat
  updated_at : String
  html_url : String
  fork : Bool
deriving DecidableEq

/-- Result of `GitHubClient.extract_repo_metadata`: the optional parsed
`.repo-context.json` (under key `context`), `PROJECT-MANIFEST.md` (key
`manifest`) and `SKILLS-INDEX.md` (key `skills`). -/
structure MetaG where
  context : Option Json
  manifest : Option String
  skills : Option String
deriving DecidableEq

structure OraclesG where
  languages : String → Except Unit (List String)
  readme : String → Except Unit (Option String)
  metadata : String → MetaG

/-- One processed-repository record of `get_processed_repos`. -/
structure RepoInfoG where
  name : String
  description : Option String
  language : Option String
  languages : List String
  topics : List String
  stars : Nat
  updated_at : String
  url : String
  is_fork : Bool
  readme_excerpt : String
  readme_sections : List (String × List Char)
  metadata : MetaG
deriving DecidableEq

/-- The `try` body of the `get_processed_repos` loop for one repository:
fetch languages and README (either may raise), extract sections and
metadata, and build the record.  Any raise makes the whole repository be
skipped. -/
def processRepoG (o : OraclesG) (r : RawRepoG) : Except Unit RepoInfoG := do
  let langs ← o.languages r.name
  let readme ← o.readme r.name
  let md := o.metadata r.name
  .ok { name := r.name
        description := r.description
        language := r.language
        languages := langs
        topics := r.topics
        stars := r.stargazersCount
        updated_at := r.updated_at
        url := r.html_url
        is_fork := r.fork
        readme_excerpt :=
          match readme with
          | some t => String.mk (t.data.take 1000)
          | none => ""
        readme_sections :=
          match readme with
          | some t => extract_readme_sections t.data
          | none => []
        metadata := md }

/-- Python's stable `list.sort(key=lambda x: x.get('updated_at',''),
reverse=True)`: a stable descending sort on the `updated_at` string. -/
def sortByUpdatedDescG (l : List RepoInfoG) : List RepoInfoG :=
  l.insertionSort (fun a b => b.updated_at ≤ a.updated_at)

/-- Embedding of `GitHubClient.get_processed_repos` (cache-miss path): the
`username` parameter only routes the underlying fetches, `listing` is the
`get_user_repos` result.  Every repository is processed; a raise during its
detail fetch skips exactly that repository; the survivors are sorted by
`updated_at` descending. -/
def get_processed_repos (username : String) (o : OraclesG)
    (listing : List RawRepoG) : List RepoInfoG :=
  let _ := username
  sortByUpdatedDescG (listing.filterMap (fun r => (processRepoG o r).toOption))

/-! ### Aggregation in ai_assistant (fetch_and_process_repos)

This variant filters forks by owner and annotates included forks with
provenance inside `metadata['repo_context']['fork_status']`.  Metadata
values are a small JSON fragment (`CVal`). -/

inductive CVal where
  | s (v : String)
  | b (v : Bool)
  | obj (kvs : List (String × CVal))

/-- Python dict assignment `d[k] = v`: replace in place, else append. -/
def setKey (k : String) (v : CVal) : List (String × CVal) → List (String × CVal)
  | [] => [(k, v)]
  | (k', v') :: rest => if k' = k then (k, v) :: rest else (k', v') :: setKey k v rest

structure RawRepoA where
  name : String
  ownerLogin : Option String
  fork : Bool
  parentFullName : Option String
  description : Option String
  language : Option String
  stargazersCount : Nat
  updated_at : String
  html_url : String
deriving DecidableEq

/-- Result of `ai_assistant.extract_repo_metadata`. -/
structure MetaA where
  repo_context : Option CVal
  project_manifests : Option (List (String × String))
  skills_index : Option String

structure OraclesA where
  detailOk : String → Bool
  topics : String → List String
  languages : String → List String
  readme : String → Option String
  metadata : String → MetaA

/-- The `fork_status` dict written into `metadata['repo_context']`:
`{'is_fork': True, 'parent_full_name': repo.get('parent', {}).get('full_name',
'unknown'), 'fork_note': ...}`. -/
def forkStatusVal (r : RawRepoA) : CVal :=
  .obj [("is_fork", .b true),
        ("parent_full_name", .s (r.parentFullName.getD "unknown")),
        ("fork_note", .s "This is a fork owned by the portfolio author")]

/-- The fork-annotation block: for a fork, `metadata['repo_context']` is
coerced to a dict (created empty if absent or non-dict) and
`fork_status` is assigned into it. -/
def annotateFork (r : RawRepoA) (m : MetaA) : MetaA :=
  if r.fork then
    let kvs :=
      match m.repo_context with
      | some (.obj kvs) => kvs
      | _ => []
    { m with repo_context := some (.obj (setKey "fork_status" (forkStatusVal r) kvs)) }
  else m

structure RepoInfoA where
  name : String
  description : Option String
  language : Option String
  languages : List String
  topics : List String
  stars : Nat
  updated_at : String
  url : String
  is_fork : Bool
  readme_excerpt : String
  readme_sections : List (String × List Char)
  metadata : MetaA

/-- One iteration of the `fetch_and_process_repos` filtering loop: a fork
whose owner login differs from the queried username is skipped
(`continue`); otherwise the repository is included exactly when its detail
fetch returns 200, with README/languages/metadata attached and the fork
annotation applied. -/
def processRepoA (username : String) (o : OraclesA) (r : RawRepoA) :
    Option RepoInfoA :=
  if r.fork && !(r.ownerLogin = some username) then none
  else if o.detailOk r.name then
    some { name := r.name
           description := r.description
           language := r.language
           languages := o.languages r.name
           topics := o.topics r.name
           stars := r.stargazersCount
           updated_at := r.updated_at
           url := r.html_url
           is_fork := r.fork
           readme_excerpt :=
             match o.readme r.name with
             | some t => String.mk (t.data.take 1000)
             | none => ""
           readme_sections :=
             match o.readme r.name with
             | some t => extract_readme_sections t.data
             | none => []
           metadata := annotateFork r (o.metadata r.name) }
  else none

/-- Embedding of `ai_assistant.fetch_and_process_repos` after the paging
loop: filter/process each listed repository, then stable-sort by
`updated_at` descending. -/
def fetch_and_process_repos (username : String) (o : OraclesA)
    (listing : List RawRepoA) : List RepoInfoA :=
  (listing.filterMap (processRepoA username o)).insertionSort
    (fun a b => b.updated_at ≤ a.updated_at)

/-! ### Context serialization (GitHubClient.generate_enhanced_context)

The serializer walks the processed records and concatenates one block per
repository.  Python string helpers used by the f-strings are embedded
character-wise: `', '.join`, `str.title()`, `s[:n]` slicing. -/

/-- `', '.join(xs)`. -/
def joinComma : List String → String
  | [] => ""
  | [x] => x
  | x :: xs => x ++ ", " ++ joinComma xs

/-- Python slice `s[:n]`. -/
def strTake (s : String) (n : Nat) : String := String.mk (s.data.take n)

/-- Python `str.title()` (ASCII behaviour): a letter following a non-letter
is uppercased, a letter following a letter is lowercased. -/
def pyTitleGo : Bool → List Char → List Char
  | _, [] => []
  | prevAlpha, c :: r =>
    (if c.isAlpha then (if prevAlpha then c.toLower else c.toUpper) else c)
      :: pyTitleGo c.isAlpha r

def pyTitle (s : String) : String := String.mk (pyTitleGo false s.data)

/-- `section_name.replace('_', ' ').title()`. -/
def sectionTitle (k : String) : String :=
  pyTitle (String.mk (k.data.map (fun c => if c = '_' then ' ' else c)))

/-- Metadata of a processed record as read by the serializer: the
`context` value (a dict of already-`str()`-rendered values, or a non-dict),
and the optional `skills` and `manifest` texts. -/
inductive CtxEntry where
  | dictE (kvs : List (String × String))
  | nonDict
deriving DecidableEq

structure CtxMeta where
  context : Option CtxEntry
  skills : Option String
  manifest : Option String
deriving DecidableEq

/-- Truthiness of the `metadata` dict: non-empty iff any key present. -/
def metaTruthy (m : CtxMeta) : Bool :=
  m.context.isSome || m.skills.isSome || m.manifest.isSome

/-- The fields of a processed record read by `generate_enhanced_context`. -/
structure RepoData where
  name : String
  description : String
  languages : List String
  topics : List String
  readme_sections : List (String × String)
  metadata : CtxMeta
deriving DecidableEq

/-- One repository block of `generate_enhanced_context`: note that every
rendered README section is `section_content[:500]` followed by a literal
`...`, and the skills text is `skills_content[:300]` followed by a literal
`...` — the marker is not conditioned on truncation. -/
def repoBlock (r : RepoData) : String :=
  let c1 := "Repository: " ++ r.name ++ "\n" ++ "Description: " ++ r.description ++ "\n"
  let c2 := if r.languages.isEmpty then c1
            else c1 ++ "Languages: " ++ joinComma r.languages ++ "\n"
  let c3 := if r.topics.isEmpty then c2
            else c2 ++ "Topics: " ++ joinComma r.topics ++ "\n"
  let c4 := if r.readme_sections.isEmpty then c3
            else r.readme_sections.foldl (fun acc kv =>
              acc ++ "\n" ++ sectionTitle kv.1 ++ ":\n" ++ strTake kv.2 500 ++ "...\n") c3
  if metaTruthy r.metadata then
    let c5 := c4 ++ "\nMetadata:\n"
    let c6 :=
      match r.metadata.context with
      | some (.dictE kvs) =>
          kvs.foldl (fun acc kv => acc ++ "- " ++ kv.1 ++ ": " ++ kv.2 ++ "\n") c5
      | some .nonDict => c5
      | none => c5
    match r.metadata.skills with
    | some sk => c6 ++ "\nSkills: " ++ strTake sk 300 ++ "...\n"
    | none => c6
  else c4

/-- `'\n\n'.join(context)`. -/
def join2NL : List String → String
  | [] => ""
  | [x] => x
  | x :: xs => x ++ "\n\n" ++ join2NL xs

/-- Embedding of `GitHubClient.generate_enhanced_context`. -/
def generate_enhanced_context (rs : List RepoData) : String :=
  join2NL (rs.map repoBlock)

/-- Modelled from the spec: the same serializer but with "an ellipsis
marker when truncated" — `...` appended to a README section or to the
skills text only when the source text exceeded the 500/300-character
bound. -/
def repoBlockSpec (r : RepoData) : String :=
  let c1 := "Repository: " ++ r.name ++ "\n" ++ "Description: " ++ r.description ++ "\n"
  let c2 := if r.languages.isEmpty then c1
            else c1 ++ "Languages: " ++ joinComma r.languages ++ "\n"
  let c3 := if r.topics.isEmpty then c2
            else c2 ++ "Topics: " ++ joinComma r.topics ++ "\n"
  let c4 := if r.readme_sections.isEmpty then c3
            else r.readme_sections.foldl (fun acc kv =>
              acc ++ "\n" ++ sectionTitle kv.1 ++ ":\n" ++ strTake kv.2 500
                ++ (if 500 < kv.2.data.length then "..." else "") ++ "\n") c3
  if metaTruthy r.metadata then
    let c5 := c4 ++ "\nMetadata:\n"
    let c6 :=
      match r.metadata.context with
      | some (.dictE kvs) =>
          kvs.foldl (fun acc kv => acc ++ "- " ++ kv.1 ++ ": " ++ kv.2 ++ "\n") c5
      | some .nonDict => c5
      | none => c5
    match r.metadata.skills with
    | some sk => c6 ++ "\nSkills: " ++ strTake sk 300
        ++ (if 300 < sk.data.length then "..." else "") ++ "\n"
    | none => c6
  else c4

/-- Modelled from the spec: serializer with truncation-conditioned
ellipsis markers. -/
def generate_enhanced_contextSpec (rs : List RepoData) : String :=
  join2NL (rs.map repoBlockSpec)

/-! ### Concrete inputs used by witnesses and counterexamples -/

/-- A store holding one well-formed entry under key `a_b` (the cache key of
endpoint `a/b`), expiring at time 5. -/
def store5 : Store Nat := fun k => if k = "a_b" then some (.wellFormed 7 5) else none

/-- A store holding one corrupt blob under key `c`. -/
def store5c : Store Nat := fun k => if k = "c" then some .corrupt else none

/-- Trace answering 200 with raw text `RAW` and an unparsable JSON body. -/
def ev10a : Nat → ReqEvent := fun _ => .response 200 none 0 "RAW" none

/-- Trace answering 200 with text `RAW` parsing to the JSON string `J`. -/
def ev10b : Nat → ReqEvent := fun _ => .response 200 none 0 "RAW" (some (.str "J"))

/-- Trace that only raises connection errors. -/
def evErr : Nat → ReqEvent := fun _ => .connError

/-- The empty response store. -/
def emptyStoreR : Store RVal := fun _ => none

/-- Modelled from the spec: the retry loop as the specification reads it,
in which a qualifying rate-limit response sleeps and "retries the *same*
attempt without consuming a retry slot".  The trace is consumed as a list
(an exhausted trace fails the attempt); with cache ineligibility the loop
returns the response body exactly as `attemptLoop` does.  It differs from
`attemptLoop` only in not decrementing the slot count on a rate-limit
wait. -/
def attemptLoopSpec (acceptRaw : Bool) (now : Nat) :
    List ReqEvent → Nat → Option ExcKind → Except (Option ExcKind) RVal
  | [], _, le => .error le
  | ev :: rest, n, le =>
    if n = 0 then .error le
    else
      match ev with
      | .connError => attemptLoopSpec acceptRaw now rest (n - 1) (some .conn)
      | .otherError => attemptLoopSpec acceptRaw now rest (n - 1) (some .other)
      | .response status rr reset text aj =>
        if rlContinue status rr reset now then
          attemptLoopSpec acceptRaw now rest n le
        else if acceptRaw then
          .ok (if status == 200 then RVal.textV text else RVal.noneV)
        else
          .ok (jsonOrText aj text)

/-- A trace with one qualifying rate-limit response, two connection errors,
and then a successful response. -/
def trC2 : List ReqEvent :=
  [.response 403 (some 0) 30 "" none, .connError, .connError,
   .response 200 none 0 "B" none]

def evC2 : Nat → ReqEvent := fun i => trC2.getD i .connError

/-- Trace whose every event is a qualifying rate-limit response. -/
def evRL : Nat → ReqEvent := fun _ => .response 403 (some 0) 30 "" none

/-- Trace answering 404 with body text `Not Found`. -/
def ev404 : Nat → ReqEvent := fun _ => .response 404 none 0 "Not Found" none

/-- Oracles whose README fetch raises exactly for repository `B`. -/
def oW : OraclesG :=
  { languages := fun _ => .ok []
    readme := fun n => if n = "B" then .error () else .ok none
    metadata := fun _ => ⟨none, none, none⟩ }

def rawW (n : String) (u : String) : RawRepoG :=
  { name := n, ownerLogin := none, description := none, language := none,
    topics := [], stargazersCount := 0, updated_at := u, html_url := "",
    fork := false }

def recW (n : String) (u : String) : RepoInfoG :=
  { name := n, description := none, language := none, languages := [],
    topics := [], stars := 0, updated_at := u, url := "", is_fork := false,
    readme_excerpt := "", readme_sections := [], metadata := ⟨none, none, none⟩ }

/-- A record with one short README section (`ab`) and a short skills text
(`sk`): neither text exceeds its preview bound. -/
def r9 : RepoData :=
  { name := "r", description := "d", languages := [], topics := [],
    readme_sections := [("tech_stack", "ab")], metadata := ⟨none, some "sk", none⟩ }

/-- A third-party fork as listed by the GitHub API: flagged as a fork and
owned by someone other than the queried user. -/
def fork3p : RawRepoG :=
  { name := "f", ownerLogin := some "someoneElse", description := none,
    language := none, topics := [], stargazersCount := 0,
    updated_at := "2024", html_url := "", fork := true }

/-- Oracles whose detail fetches all succeed with empty payloads. -/
def oG0 : OraclesG :=
  { languages := fun _ => .ok [], readme := fun _ => .ok none,
    metadata := fun _ => ⟨none, none, none⟩ }

/-- A fork owned by the queried user `u`, with a known parent. -/
def aFork : RawRepoA :=
  { name := "f", ownerLogin := some "u", fork := true,
    parentFullName := some "orig/f", description := none, language := none,
    stargazersCount := 0, updated_at := "2024", html_url := "" }

/-- ai_assistant oracles whose detail fetches all succeed with empty
payloads. -/
def oA0 : OraclesA :=
  { detailOk := fun _ => true, topics := fun _ => [], languages := fun _ => [],
    readme := fun _ => none, metadata := fun _ => ⟨none, none, none⟩ }

/-- Whether `h` occurs in `s` as a contiguous run (substring). -/
def occursIn (h : List Char) : List Char → Bool
  | [] => h.isEmpty
  | c :: rest => h.isPrefixOf (c :: rest) || occursIn h rest

/-- No position inside `pre` starts an occurrence of the heading `h` in the
document `pre ++ s2`: at each such position, `h` is not a prefix of the
remainder.  This pins the leftmost anchored match of the search to lie at
or after `s2`. -/
def noMatchIn (h : List Char) : List Char → List Char → Bool
  | [], _ => true
  | a :: pre2, s2 => !(h.isPrefixOf (a :: pre2 ++ s2)) && noMatchIn h pre2 s2

/-! ### Theorems -/

/-- Claim C5: a cache `get` at or after the entry's expiry returns absent
and deletes the entry from the backing store, and a `get` on a corrupt
(unreadable) entry returns absent without raising (the embedded read is
total and leaves the store unchanged). -/
theorem C5_expiry :
    (∀ (α : Type) (store : Store α) (e : String) (d : α) (exp now : Nat),
       store (cache_key e) = some (.wellFormed d exp) → exp ≤ now →
         get_from_cache true store e now
             = (none, storeErase store (cache_key e))
           ∧ (get_from_cache true store e now).2 (cache_key e) = none)
    ∧ (∀ (α : Type) (store : Store α) (e : String) (now : Nat),
       store (cache_key e) = some .corrupt →
         get_from_cache true store e now = (none, store)) := by
  constructor
  · intro α store e d exp now h hle
    have hlt : ¬ now < exp := Nat.not_lt.mpr hle
    constructor
    · simp [get_from_cache, h, hlt]
    · simp [get_from_cache, h, hlt, storeErase]
  · intro α store e now h
    simp [get_from_cache, h]

/-- Witness for C5: the expired entry of `store5` read at time 9 > 5, and
the corrupt entry of `store5c`. -/
theorem C5_expiry_w :
    (get_from_cache true store5 "a/b" 9 = (none, storeErase store5 (cache_key "a/b"))
      ∧ (get_from_cache true store5 "a/b" 9).2 (cache_key "a/b") = none)
    ∧ get_from_cache true store5c "c" 9 = (none, store5c) :=
  ⟨C5_expiry.1 Nat store5 "a/b" 7 5 9 (by decide) (by decide),
   C5_expiry.2 Nat store5c "c" 9 (by decide)⟩

/-- Claim C6: a successful `put` of a payload followed by a `get` of the
same key before the TTL elapses returns the identical payload. -/
theorem C6_roundtrip (α : Type) (store : Store α) (e : String) (d : α)
    (ttl now now2 : Nat) (h : now2 < now + ttl) :
    (save_to_cache true store e d ttl now).1 = true
    ∧ get_from_cache true (save_to_cache true store e d ttl now).2 e now2
        = (some d, (save_to_cache true store e d ttl now).2) := by
  refine ⟨rfl, ?_⟩
  simp [save_to_cache, get_from_cache, storeInsert, h]

/-- Witness for C6: payload 7 stored under key `k` at time 0 with TTL 10 and
read back at time 9. -/
theorem C6_roundtrip_w :
    (save_to_cache true (fun _ => none) "k" (7 : Nat) 10 0).1 = true
    ∧ get_from_cache true (save_to_cache true (fun _ => none) "k" (7 : Nat) 10 0).2 "k" 9
        = (some 7, (save_to_cache true (fun _ => none) "k" (7 : Nat) 10 0).2) :=
  C6_roundtrip Nat (fun _ => none) "k" 7 10 0 9 (by decide)

/-- A cache-eligible GET whose entry is absent and whose first attempt
returns 200 stores the result under `cache_key endpoint` and returns it. -/
theorem make_request_miss200 (e : String) (ps : List (String × String)) (ar : Bool)
    (store : Store RVal) (t : String) (aj : Option Json) (reset now : Nat)
    (ev : Nat → ReqEvent)
    (hmiss : store (cache_key e) = none)
    (hev : ev 0 = .response 200 none reset t aj) :
    make_request ⟨true, true⟩ "GET" e ps ar none store now ev
      = (.ok (if ar then RVal.textV t else jsonOrText aj t),
         storeInsert store (cache_key e)
           (.wellFormed (if ar then RVal.textV t else jsonOrText aj t) (now + 3600))) := by
  unfold make_request
  simp only [show pyUpper "GET" = "GET" from rfl, Option.getD, beq_self_eq_true,
    Bool.and_true, Bool.true_and, if_true, get_from_cache, cacheOn, hmiss]
  rw [attemptLoop.eq_def]
  simp only [hev]
  simp [rlContinue, save_to_cache, cacheOn]

/-- A cache-eligible GET finding an unexpired entry returns it untouched. -/
theorem make_request_hit (e : String) (ps : List (String × String)) (ar : Bool)
    (store : Store RVal) (v : RVal) (exp now : Nat) (ev : Nat → ReqEvent)
    (hhit : store (cache_key e) = some (.wellFormed v exp)) (hnow : now < exp) :
    make_request ⟨true, true⟩ "GET" e ps ar none store now ev = (.ok v, store) := by
  unfold make_request
  simp only [show pyUpper "GET" = "GET" from rfl, Option.getD, beq_self_eq_true,
    Bool.and_true, Bool.true_and, if_true, get_from_cache, cacheOn, hhit, hnow]

/-- Claim C10: the request-executor cache key is derived from the endpoint
alone, ignoring the raw-content flag and the query parameters.  A GET with
`accept_raw=True` populates the entry with the raw text; a later
cache-eligible GET of the same endpoint with `accept_raw=False` and
different query parameters (before expiry) returns that raw text — and
symmetrically, an entry populated with a parsed JSON payload is served to a
later `accept_raw=True` GET. -/
theorem C10_cache_key
    (e : String) (ps1 ps2 : List (String × String)) (store : Store RVal)
    (t : String) (j : Json) (aj : Option Json) (reset : Nat)
    (ev1 ev2 ev3 ev4 : Nat → ReqEvent) (now now2 : Nat)
    (hmiss : store (cache_key e) = none)
    (h1 : ev1 0 = .response 200 none reset t aj)
    (h3 : ev3 0 = .response 200 none reset t (some j))
    (hnow : now2 < now + 3600) :
    ((make_request ⟨true, true⟩ "GET" e ps1 true none store now ev1).1
        = .ok (RVal.textV t)
      ∧ (make_request ⟨true, true⟩ "GET" e ps2 false none
            (make_request ⟨true, true⟩ "GET" e ps1 true none store now ev1).2 now2 ev2).1
        = .ok (RVal.textV t))
    ∧ ((make_request ⟨true, true⟩ "GET" e ps1 false none store now ev3).1
        = .ok (RVal.jsonV j)
      ∧ (make_request ⟨true, true⟩ "GET" e ps2 true none
            (make_request ⟨true, true⟩ "GET" e ps1 false none store now ev3).2 now2 ev4).1
        = .ok (RVal.jsonV j)) := by
  have hr1 := make_request_miss200 e ps1 true store t aj reset now ev1 hmiss h1
  have hr3 := make_request_miss200 e ps1 false store t (some j) reset now ev3 hmiss h3
  refine ⟨⟨by simp [hr1], ?_⟩, ⟨by simp [hr3, jsonOrText], ?_⟩⟩
  · rw [hr1]
    rw [make_request_hit e ps2 false _ (RVal.textV t) (now + 3600) now2 ev2
      (by simp [storeInsert]) hnow]
  · rw [hr3]
    rw [make_request_hit e ps2 true _ (jsonOrText (some j) t) (now + 3600) now2 ev4
      (by simp [storeInsert]) hnow]
    simp [jsonOrText]

/-- Witness for C10: endpoint `repos/x` first fetched raw (populating the
cache with the raw text), then fetched as JSON with different query
parameters 10 seconds later, and the symmetric JSON-first scenario. -/
theorem C10_cache_key_w :
    ((make_request ⟨true, true⟩ "GET" "repos/x" [("page", "1")] true none emptyStoreR 0 ev10a).1
        = .ok (RVal.textV "RAW")
      ∧ (make_request ⟨true, true⟩ "GET" "repos/x" [("page", "2")] false none
            (make_request ⟨true, true⟩ "GET" "repos/x" [("page", "1")] true none emptyStoreR 0 ev10a).2
            10 evErr).1
        = .ok (RVal.textV "RAW"))
    ∧ ((make_request ⟨true, true⟩ "GET" "repos/x" [("page", "1")] false none emptyStoreR 0 ev10b).1
        = .ok (RVal.jsonV (.str "J"))
      ∧ (make_request ⟨true, true⟩ "GET" "repos/x" [("page", "2")] true none
            (make_request ⟨true, true⟩ "GET" "repos/x" [("page", "1")] false none emptyStoreR 0 ev10b).2
            10 evErr).1
        = .ok (RVal.jsonV (.str "J"))) :=
  C10_cache_key "repos/x" [("page", "1")] [("page", "2")] emptyStoreR "RAW" (.str "J")
    none 0 ev10a evErr ev10b evErr 0 10 rfl rfl rfl (by decide)

/-- Counterexample for C2: on the trace `trC2` (rate-limit wait, two
connection errors, then success) the executor exhausts its 3 slots — the
rate-limit wait consumed one — and raises, while the spec's reading (the
wait does not consume a slot, so the third network attempt runs and
succeeds) returns the body. -/
theorem C2_counterexample :
    (attemptLoop ⟨false, false⟩ false false "e" 0 evC2 3 0 emptyStoreR none).1
      ≠ attemptLoopSpec false 0 trC2 3 none := by decide

/-- Claim C2 amended: when the response of the current iteration qualifies
as a rate-limit wait (403, remaining 0, wait strictly between 0 and 60),
the executor sleeps and retries, but the retry consumes one of the 3
bounded slots: the iteration leaves `last_exception` and the store
untouched and continues with one slot fewer. -/
theorem C2_amended (ctx : ReqCtx) (ce ar : Bool) (e : String) (now : Nat)
    (events : Nat → ReqEvent) (n i : Nat) (store : Store RVal)
    (le : Option ExcKind) (status : Nat) (rr : Option Nat) (reset : Nat)
    (t : String) (aj : Option Json)
    (hev : events i = .response status rr reset t aj)
    (hrl : rlContinue status rr reset now = true) :
    attemptLoop ctx ce ar e now events (n + 1) i store le
      = attemptLoop ctx ce ar e now events n (i + 1) store le := by
  rw [attemptLoop.eq_def]
  simp [hev, hrl]

/-- Witness for C2's amended claim: a qualifying rate-limit response at
iteration 0 with 2 slots left continues at iteration 1 with 1 slot left. -/
theorem C2_amended_w :
    attemptLoop ⟨false, false⟩ false false "e" 0 evRL (1 + 1) 0 emptyStoreR none
      = attemptLoop ⟨false, false⟩ false false "e" 0 evRL 1 (0 + 1) emptyStoreR none :=
  C2_amended ⟨false, false⟩ false false "e" 0 evRL 1 0 emptyStoreR none
    403 (some 0) 30 "" none rfl (by decide)

/-- Counterexample for C3: a GET with `accept_raw=True` answered 404 with
body `Not Found` returns `None`, not the raw body. -/
theorem C3_counterexample :
    (make_request ⟨false, false⟩ "GET" "e" [] true none emptyStoreR 0 ev404).1
        = .ok RVal.noneV
    ∧ (make_request ⟨false, false⟩ "GET" "e" [] true none emptyStoreR 0 ev404).1
        ≠ .ok (RVal.textV "Not Found") := by
  constructor
  · decide
  · decide

/-- Claim C3 amended: for every HTTP method, a non-200 response that does
not qualify for a rate-limit wait is returned to the caller without
raising: as the parsed JSON body (or raw text when unparsable) when
`accept_raw=False`, and as `None` when `accept_raw=True`; only
transport-level failure after exhausting the retries raises. -/
theorem C3_amended (method e : String) (ps : List (String × String))
    (status : Nat) (rr : Option Nat) (reset : Nat) (t : String) (aj : Option Json)
    (events : Nat → ReqEvent) (store : Store RVal) (now : Nat)
    (hev : events 0 = .response status rr reset t aj)
    (hrl : rlContinue status rr reset now = false)
    (hs : status ≠ 200) :
    (make_request ⟨false, false⟩ method e ps false none store now events).1
        = .ok (jsonOrText aj t)
    ∧ (make_request ⟨false, false⟩ method e ps true none store now events).1
        = .ok RVal.noneV := by
  have hs' : (status == 200) = false := by simpa using hs
  constructor <;>
  · unfold make_request
    simp only [Option.getD, Bool.and_false, Bool.false_eq_true, if_false]
    rw [attemptLoop.eq_def]
    simp only [hev]
    simp [hrl, hs']

/-- Witness for C3's amended claim: a 404 whose body parses as the JSON
string `nf`, fetched with both flag values. -/
theorem C3_amended_w :
    (make_request ⟨false, false⟩ "POST" "e" [] false none emptyStoreR 0
        (fun _ => .response 404 none 0 "Not Found" (some (.str "nf")))).1
      = .ok (jsonOrText (some (.str "nf")) "Not Found")
    ∧ (make_request ⟨false, false⟩ "POST" "e" [] true none emptyStoreR 0
        (fun _ => .response 404 none 0 "Not Found" (some (.str "nf")))).1
      = .ok RVal.noneV :=
  C3_amended "POST" "e" [] 404 none 0 "Not Found" (some (.str "nf"))
    (fun _ => .response 404 none 0 "Not Found" (some (.str "nf"))) emptyStoreR 0
    rfl (by decide) (by decide)

/-- Claim C4: per-repository failures are isolated.  For a listing
`[A, B, C]` in which B's detail fetch raises while A's and C's succeed,
`get_processed_repos` returns exactly the processed records of A and C,
stable-sorted by `updated_at` descending, without raising (the embedding is
a total function). -/
theorem C4_isolated (u : String) (o : OraclesG) (A B C : RawRepoG)
    (ra rc : RepoInfoG)
    (hA : processRepoG o A = .ok ra) (hB : processRepoG o B = .error ())
    (hC : processRepoG o C = .ok rc) :
    get_processed_repos u o [A, B, C] = sortByUpdatedDescG [ra, rc] := by
  simp [get_processed_repos, List.filterMap, hA, hB, hC, Except.toOption]

/-- Witness for C4: repositories `A`, `B`, `C` where `B`'s README fetch
raises under the oracles `oW`. -/
theorem C4_isolated_w :
    processRepoG oW (rawW "A" "2024-03") = .ok (recW "A" "2024-03")
    ∧ processRepoG oW (rawW "B" "2024-02") = .error ()
    ∧ processRepoG oW (rawW "C" "2024-01") = .ok (recW "C" "2024-01")
    ∧ get_processed_repos "yungryce" oW
        [rawW "A" "2024-03", rawW "B" "2024-02", rawW "C" "2024-01"]
      = sortByUpdatedDescG [recW "A" "2024-03", recW "C" "2024-01"] :=
  ⟨by decide, by decide, by decide,
   C4_isolated "yungryce" oW (rawW "A" "2024-03") (rawW "B" "2024-02")
     (rawW "C" "2024-01") (recW "A" "2024-03") (recW "C" "2024-01")
     (by decide) (by decide) (by decide)⟩

/-- A full page (length exactly `perPage > 0`) is appended and fetching
continues with the next page. -/
theorem get_user_repos_full {perPage : Nat} (q : List Json)
    (rest : List (Except Unit PageVal)) (hq : q.length = perPage)
    (hpos : 0 < perPage) :
    get_user_repos perPage (.ok (.listV q) :: rest)
      = q ++ get_user_repos perPage rest := by
  cases q with
  | nil => simp at hq; omega
  | cons c cs =>
    rw [get_user_repos]
    · rw [hq]
      simp
    · simp

/-- Any run of full pages is appended in order. -/
theorem get_user_repos_fullRun {perPage : Nat} (ps : List (List Json))
    (rest : List (Except Unit PageVal)) (h : ∀ q ∈ ps, q.length = perPage)
    (hpos : 0 < perPage) :
    get_user_repos perPage (ps.map (fun q => .ok (.listV q)) ++ rest)
      = ps.flatten ++ get_user_repos perPage rest := by
  induction ps with
  | nil => simp
  | cons q ps ih =>
    have hq : q.length = perPage := h q (by simp)
    have ih' := ih (fun x hx => h x (by simp [hx]))
    simp only [List.map_cons, List.cons_append, List.flatten_cons]
    rw [get_user_repos_full q _ hq hpos, ih', List.append_assoc]

/-- A short non-empty page is appended and fetching stops. -/
theorem get_user_repos_short {perPage : Nat} (q : List Json)
    (rest : List (Except Unit PageVal)) (h1 : q ≠ []) (h2 : q.length < perPage) :
    get_user_repos perPage (.ok (.listV q) :: rest) = q := by
  cases q with
  | nil => exact absurd rfl h1
  | cons c cs =>
    rw [get_user_repos]
    · rw [if_pos h2]
      simp
    · simp

/-- Claim C7: pagination.  (1) For pages of sizes 100, 100 and 37 the
listing is their concatenation in page order — 237 items.  (2) After any
run of full pages, the first page shorter than `per_page` (non-empty)
stops fetching and the result is the concatenation of everything fetched.
(3) A raised page fetch stops fetching and the repositories collected so
far are returned as a partial result. -/
theorem C7_pagination :
    (∀ p1 p2 p3 : List Json, p1.length = 100 → p2.length = 100 →
      p3.length = 37 →
      get_user_repos 100 [.ok (.listV p1), .ok (.listV p2), .ok (.listV p3)]
          = p1 ++ p2 ++ p3
        ∧ (get_user_repos 100
            [.ok (.listV p1), .ok (.listV p2), .ok (.listV p3)]).length = 237)
    ∧ (∀ (ps : List (List Json)) (p : List Json)
        (rest : List (Except Unit PageVal)),
        (∀ q ∈ ps, q.length = 100) → p ≠ [] → p.length < 100 →
        get_user_repos 100
            (ps.map (fun q => .ok (.listV q)) ++ .ok (.listV p) :: rest)
          = ps.flatten ++ p)
    ∧ (∀ (ps : List (List Json)) (rest : List (Except Unit PageVal)),
        (∀ q ∈ ps, q.length = 100) →
        get_user_repos 100
            (ps.map (fun q => .ok (.listV q)) ++ .ok (.listV []) :: rest)
          = ps.flatten)
    ∧ (∀ (ps : List (List Json)) (rest : List (Except Unit PageVal)),
        (∀ q ∈ ps, q.length = 100) →
        get_user_repos 100 (ps.map (fun q => .ok (.listV q)) ++ .error () :: rest)
          = ps.flatten) := by
  have hstep : ∀ (ps : List (List Json)) (p : List Json)
      (rest : List (Except Unit PageVal)),
      (∀ q ∈ ps, q.length = 100) → p ≠ [] → p.length < 100 →
      get_user_repos 100
          (ps.map (fun q => .ok (.listV q)) ++ .ok (.listV p) :: rest)
        = ps.flatten ++ p := by
    intro ps p rest h hne hlt
    rw [get_user_repos_fullRun ps _ h (by omega),
      get_user_repos_short p rest hne hlt]
  refine ⟨?_, hstep, ?_, ?_⟩
  · intro p1 p2 p3 h1 h2 h3
    have hne : p3 ≠ [] := by intro h; rw [h] at h3; simp at h3
    have hmem : ∀ q ∈ [p1, p2], q.length = 100 := by
      intro q hq
      simp only [List.mem_cons, List.not_mem_nil, or_false] at hq
      rcases hq with rfl | rfl
      · exact h1
      · exact h2
    have h4 := hstep [p1, p2] p3 [] hmem hne (by omega)
    simp only [List.map_cons, List.map_nil, List.cons_append, List.nil_append,
      List.flatten_cons, List.flatten_nil, List.append_nil] at h4
    refine ⟨h4, ?_⟩
    rw [h4]
    simp [h1, h2, h3]
  · intro ps rest h
    rw [get_user_repos_fullRun ps _ h (by omega)]
    simp [get_user_repos]
  · intro ps rest h
    rw [get_user_repos_fullRun ps _ h (by omega)]
    simp [get_user_repos]

/-- Witness for C7: concrete pages of 100, 100 and 37 null items, a lone
short page, and a full page followed by a raising fetch. -/
theorem C7_pagination_w :
    (get_user_repos 100
        [.ok (.listV (List.replicate 100 Json.null)),
         .ok (.listV (List.replicate 100 Json.null)),
         .ok (.listV (List.replicate 37 Json.null))]
        = List.replicate 100 Json.null ++ List.replicate 100 Json.null
            ++ List.replicate 37 Json.null
      ∧ (get_user_repos 100
          [.ok (.listV (List.replicate 100 Json.null)),
           .ok (.listV (List.replicate 100 Json.null)),
           .ok (.listV (List.replicate 37 Json.null))]).length = 237)
    ∧ get_user_repos 100
        (([] : List (List Json)).map (fun q => .ok (.listV q))
          ++ .ok (.listV [Json.bool false]) :: [])
        = ([] : List (List Json)).flatten ++ [Json.bool false]
    ∧ get_user_repos 100
        ([List.replicate 100 Json.null].map (fun q => .ok (.listV q))
          ++ .ok (.listV []) :: [])
        = [List.replicate 100 Json.null].flatten
    ∧ get_user_repos 100
        ([List.replicate 100 Json.null].map (fun q => .ok (.listV q))
          ++ .error () :: [])
        = [List.replicate 100 Json.null].flatten := by
  refine ⟨C7_pagination.1 _ _ _ (by simp) (by simp) (by simp), ?_, ?_, ?_⟩
  · exact C7_pagination.2.1 [] [Json.bool false] []
      (by intro q hq; simp at hq) (by simp) (by simp)
  · exact C7_pagination.2.2.1 [List.replicate 100 Json.null] []
      (by intro q hq; simp only [List.mem_singleton] at hq; simp [hq])
  · exact C7_pagination.2.2.2 [List.replicate 100 Json.null] []
      (by intro q hq; simp only [List.mem_singleton] at hq; simp [hq])

/-- Counterexample for C9: on a record whose README section (`ab`) and
skills text (`sk`) are far below the 500/300-character bounds, the
serializer still appends the ellipsis markers, so it differs from the
spec's serializer that appends them only on truncation. -/
theorem C9_counterexample :
    generate_enhanced_context [r9] ≠ generate_enhanced_contextSpec [r9] := by decide

/-- Claim C9 amended: each rendered README section is the 500-character
truncation of its text and each skills text the 300-character truncation,
but the ellipsis marker is appended unconditionally — whether or not the
text was actually truncated. -/
theorem C9_amended (sec sk : String) :
    (generate_enhanced_context
        [{ name := "r", description := "d", languages := [], topics := [],
           readme_sections := [("tech_stack", sec)],
           metadata := ⟨none, some sk, none⟩ }]).data
      = "Repository: r\nDescription: d\n\nTech Stack:\n".data
          ++ sec.data.take 500
          ++ "...\n\nMetadata:\n\nSkills: ".data
          ++ sk.data.take 300 ++ "...\n".data := by
  simp [generate_enhanced_context, join2NL, repoBlock, metaTruthy, strTake,
    show sectionTitle "tech_stack" = "Tech Stack" from rfl]

/-- Counterexample for C1: `get_processed_repos` includes a fork owned by
`someoneElse` when the queried username is `yungryce`, and records no fork
provenance in its metadata — it applies no fork filtering at all. -/
theorem C1_counterexample :
    (get_processed_repos "yungryce" oG0 [fork3p]).map
        (fun x => (x.name, x.is_fork, x.metadata.context))
      = [("f", true, none)] := by decide

/-- Python dict assignment `d[k] = v` makes `d[k]` retrievable as `v`. -/
theorem lookup_setKey (k : String) (v : CVal) (l : List (String × CVal)) :
    List.lookup k (setKey k v l) = some v := by
  induction l with
  | nil => simp [setKey, List.lookup]
  | cons p rest ih =>
    obtain ⟨k2, v2⟩ := p
    by_cases h : k2 = k
    · simp [setKey, h, List.lookup]
    · have hb : (k == k2) = false := by
        simp [Ne.symm h]
      simp [setKey, h, List.lookup, hb, ih]

/-- Membership in the sorted aggregate is membership in the filtered map. -/
theorem mem_fetch (u : String) (o : OraclesA) (listing : List RawRepoA)
    (x : RepoInfoA) :
    x ∈ fetch_and_process_repos u o listing
      ↔ ∃ r ∈ listing, processRepoA u o r = some x := by
  rw [fetch_and_process_repos, List.mem_insertionSort, List.mem_filterMap]

/-- Claim C1 amended: the owner-based fork filtering and the fork
provenance live in `ai_assistant.fetch_and_process_repos`, not in
`get_processed_repos`.  There, provided every repository's detail fetch
succeeds (and listing names are distinct), a listed fork appears in the
aggregated collection exactly when its owner login equals the queried
username, and every aggregated fork record carries
`metadata['repo_context']['fork_status']` whose `parent_full_name` is the
listed parent's full name (the string `unknown` when the listing has no
parent). -/
theorem C1_amended (u : String) (o : OraclesA) (listing : List RawRepoA)
    (hdet : ∀ r ∈ listing, o.detailOk r.name = true)
    (hnd : (listing.map RawRepoA.name).Nodup) :
    (∀ r ∈ listing, r.fork = true →
      ((∃ x ∈ fetch_and_process_repos u o listing, x.name = r.name)
        ↔ r.ownerLogin = some u))
    ∧ (∀ x ∈ fetch_and_process_repos u o listing, x.is_fork = true →
        ∃ r ∈ listing, x.name = r.name ∧ ∃ kvs,
          x.metadata.repo_context = some (CVal.obj kvs)
          ∧ List.lookup "fork_status" kvs = some (forkStatusVal r)) := by
  constructor
  · intro r hr hf
    constructor
    · rintro ⟨x, hx, hname⟩
      rw [mem_fetch] at hx
      obtain ⟨r2, hr2, hp⟩ := hx
      unfold processRepoA at hp
      by_cases hc : r2.fork && !(decide (r2.ownerLogin = some u))
      · rw [if_pos hc] at hp
        exact absurd hp (by simp)
      · rw [if_neg hc] at hp
        rw [if_pos (hdet r2 hr2)] at hp
        have hxn : x.name = r2.name := by
          cases hp
          rfl
        have : r2 = r :=
          List.inj_on_of_nodup_map hnd hr2 hr (by rw [← hxn, hname])
        subst this
        simp only [hf, Bool.true_and, Bool.not_eq_true'] at hc
        simpa using hc
    · intro howner
      have hcond : ¬ (r.fork && !(decide (r.ownerLogin = some u))) = true := by
        simp [howner]
      have hp : ∃ y, processRepoA u o r = some y ∧ y.name = r.name := by
        unfold processRepoA
        rw [if_neg hcond, if_pos (hdet r hr)]
        exact ⟨_, rfl, rfl⟩
      obtain ⟨y, hy, hyn⟩ := hp
      exact ⟨y, (mem_fetch u o listing y).2 ⟨r, hr, hy⟩, hyn⟩
  · intro x hx hfork
    rw [mem_fetch] at hx
    obtain ⟨r2, hr2, hp⟩ := hx
    unfold processRepoA at hp
    by_cases hc : r2.fork && !(decide (r2.ownerLogin = some u))
    · rw [if_pos hc] at hp
      exact absurd hp (by simp)
    · rw [if_neg hc] at hp
      rw [if_pos (hdet r2 hr2)] at hp
      refine ⟨r2, hr2, ?_, ?_⟩
      · cases hp; rfl
      · have hforkr : r2.fork = true := by
          cases hp
          exact hfork
        cases hp
        refine ⟨setKey "fork_status" (forkStatusVal r2)
          (match (o.metadata r2.name).repo_context with
           | some (.obj kvs) => kvs
           | _ => []), ?_, lookup_setKey _ _ _⟩
        simp [annotateFork, hforkr]

/-- Witness for C1's amended claim: the single-fork listing `[aFork]` owned
by the queried user `u` under the all-succeeding oracles `oA0`. -/
theorem C1_amended_w :
    (∀ r ∈ [aFork], oA0.detailOk r.name = true)
    ∧ (List.map RawRepoA.name [aFork]).Nodup
    ∧ ((∀ r ∈ [aFork], r.fork = true →
        ((∃ x ∈ fetch_and_process_repos "u" oA0 [aFork], x.name = r.name)
          ↔ r.ownerLogin = some "u"))
      ∧ (∀ x ∈ fetch_and_process_repos "u" oA0 [aFork], x.is_fork = true →
          ∃ r ∈ [aFork], x.name = r.name ∧ ∃ kvs,
            x.metadata.repo_context = some (CVal.obj kvs)
            ∧ List.lookup "fork_status" kvs = some (forkStatusVal r))) :=
  ⟨by simp [oA0], by simp,
   C1_amended "u" oA0 [aFork] (by simp [oA0]) (by simp)⟩

/-- Counterexample for C8: on a document whose section body is followed by
a third-level heading `### Notes`, the code's capture stops at the `##`
inside `###`, while the spec's capture runs to the next second-level
heading or the end of the document. -/
theorem C8_counterexample :
    extract_readme_sections "## Technology Signature\nPython\n### Notes\nextra".data
      ≠ extract_readme_sectionsSpec
          "## Technology Signature\nPython\n### Notes\nextra".data := by decide

/-- An anchored attempt fails where the heading is not present. -/
theorem matchCapture_none (h s : List Char) (hpre : h.isPrefixOf s = false) :
    matchCapture h s = none := by
  simp [matchCapture, hpre]

/-- A list is a prefix of itself followed by anything. -/
theorem isPrefixOf_append_self (h t : List Char) :
    h.isPrefixOf (h ++ t) = true := by
  induction h with
  | nil => cases t <;> rfl
  | cons a r ih => simp [List.isPrefixOf, ih]

/-- The anchored attempt at the heading's own position: any whitespace
character after the heading satisfies the pattern's whitespace, and the
capture starts after the maximal whitespace run. -/
theorem matchCapture_at (h : List Char) (c : Char) (t : List Char)
    (hc : pyIsSpace c = true) :
    matchCapture h (h ++ c :: t)
      = some (takeUntilHH (t.dropWhile pyIsSpace)) := by
  rw [matchCapture, if_pos (isPrefixOf_append_self h (c :: t))]
  rw [List.drop_left]
  simp only [hc, List.dropWhile_cons, if_true]

/-- A search whose anchored attempt succeeds at the start returns that
capture. -/
theorem reSearch_here (h s : List Char) (cap : List Char)
    (hm : matchCapture h s = some cap) : reSearch h s = some cap := by
  cases s with
  | nil => rw [reSearch, hm]
  | cons c rest => rw [reSearch, hm]

/-- The left-to-right scan skips a prefix in which no anchored match
starts. -/
theorem reSearch_append (h pre s2 : List Char)
    (hpre : noMatchIn h pre s2 = true) :
    reSearch h (pre ++ s2) = reSearch h s2 := by
  induction pre with
  | nil => rfl
  | cons a pre2 ih =>
    rw [noMatchIn, Bool.and_eq_true, Bool.not_eq_true'] at hpre
    rw [List.cons_append, reSearch,
      matchCapture_none _ _ (by rw [← List.cons_append]; exact hpre.1)]
    show reSearch h (pre2 ++ s2) = reSearch h s2
    exact ih hpre.2

/-- A text without `##` has no `##` in its tail. -/
theorem hasHH_tail (a : Char) (r : List Char) (hf : hasHH (a :: r) = false) :
    hasHH r = false := by
  cases r with
  | nil => rfl
  | cons b r2 =>
    rw [hasHH, Bool.or_eq_false_iff] at hf
    exact hf.2

/-- A text without `##` is taken whole. -/
theorem takeUntilHH_id (s : List Char) (hf : hasHH s = false) :
    takeUntilHH s = s := by
  induction s with
  | nil => rfl
  | cons a r ih =>
    cases r with
    | nil => rfl
    | cons b r2 =>
      rw [hasHH, Bool.or_eq_false_iff] at hf
      rw [takeUntilHH, if_neg (by simp [hf.1]), ih hf.2]

/-- Dropping a prefix of the left part preserves the absence of `##`
across the appended text. -/
theorem hasHH_dropWhile_ap (p : Char → Bool) (xs ys : List Char)
    (h : hasHH (xs ++ ys) = false) :
    hasHH (xs.dropWhile p ++ ys) = false := by
  induction xs with
  | nil => exact h
  | cons a r ih =>
    rw [List.cons_append] at h
    rw [List.dropWhile_cons]
    by_cases hp : p a
    · rw [if_pos hp]
      exact ih (hasHH_tail _ _ h)
    · rw [if_neg hp, List.cons_append]
      exact h

/-- A `dropWhile` never crosses an element failing the predicate, so it
distributes over an append whose right part starts with one. -/
theorem dropWhile_append_cons (p : Char → Bool) (xs : List Char) (c : Char)
    (ys : List Char) (hc : p c = false) :
    List.dropWhile p (xs ++ c :: ys) = xs.dropWhile p ++ c :: ys := by
  induction xs with
  | nil =>
    rw [List.nil_append, List.dropWhile_cons, if_neg (by simp [hc]),
      List.dropWhile_nil, List.nil_append]
  | cons a r ih =>
    rw [List.cons_append, List.dropWhile_cons, List.dropWhile_cons]
    by_cases hp : p a
    · rw [if_pos hp, if_pos hp]
      exact ih
    · rw [if_neg hp, if_neg hp, List.cons_append]

/-- Dropping a prefix preserves the absence of `##`. -/
theorem hasHH_dropWhile (p : Char → Bool) (s : List Char)
    (hf : hasHH s = false) : hasHH (s.dropWhile p) = false := by
  induction s with
  | nil => exact hf
  | cons a r ih =>
    rw [List.dropWhile_cons]
    by_cases hp : p a
    · rw [if_pos hp]
      exact ih (hasHH_tail a r hf)
    · rw [if_neg hp]
      exact hf

/-- `dropWhile` is idempotent. -/
theorem dropWhile_dropWhile (p : Char → Bool) (s : List Char) :
    (s.dropWhile p).dropWhile p = s.dropWhile p := by
  induction s with
  | nil => rfl
  | cons a r ih =>
    rw [List.dropWhile_cons]
    by_cases hp : p a
    · rw [if_pos hp]
      exact ih
    · rw [if_neg hp, List.dropWhile_cons, if_neg hp]

/-- Stripping after dropping leading whitespace strips the original. -/
theorem pyStrip_dropWhile (s : List Char) :
    pyStrip (s.dropWhile pyIsSpace) = pyStrip s := by
  rw [pyStrip, pyStrip, dropWhile_dropWhile]

/-- The capture machinery stops exactly at the first `##`: a body that
contains no `##` and does not end in `#` is taken whole, and everything
from the `##` on — whatever it is — is dropped. -/
theorem takeUntilHH_stop (body mid : List Char)
    (h : hasHH (body ++ ['#']) = false) :
    takeUntilHH (body ++ '#' :: '#' :: mid) = body := by
  induction body with
  | nil =>
    rw [List.nil_append, takeUntilHH, if_pos (by decide)]
  | cons a r ih =>
    cases r with
    | nil =>
      rw [List.singleton_append, hasHH] at h
      rw [Bool.or_eq_false_iff] at h
      rw [List.singleton_append, takeUntilHH, if_neg (by simpa using h.1),
        takeUntilHH, if_pos (by decide)]
    | cons b r2 =>
      rw [List.cons_append, List.cons_append, hasHH, Bool.or_eq_false_iff] at h
      rw [List.cons_append, List.cons_append, takeUntilHH,
        if_neg (by simpa using h.1)]
      rw [← List.cons_append, ih (by rw [List.cons_append]; exact h.2)]

/-- The search fails on a document in which the heading never occurs. -/
theorem reSearch_none (h : List Char) (s : List Char)
    (hocc : occursIn h s = false) : reSearch h s = none := by
  induction s with
  | nil =>
    rw [occursIn] at hocc
    rw [reSearch, matchCapture_none]
    cases h with
    | nil => simp at hocc
    | cons a r => rfl
  | cons c rest ih =>
    rw [occursIn, Bool.or_eq_false_iff] at hocc
    rw [reSearch, matchCapture_none _ _ hocc.1, ih hocc.2]

/-- A key outside a pattern run's keys is not found among its captures. -/
theorem lookup_filterMap_none (key : String) (s : List Char)
    (pats : List (List Char × String)) (hnot : key ∉ pats.map Prod.snd) :
    List.lookup key (pats.filterMap (fun p =>
      match reSearch p.1 s with
      | some cap => some (p.2, pyStrip cap)
      | none => none)) = none := by
  induction pats with
  | nil => rfl
  | cons q rest ih =>
    simp only [List.map_cons, List.mem_cons, not_or] at hnot
    rw [List.filterMap_cons]
    cases hq : reSearch q.1 s with
    | none => exact ih hnot.2
    | some cap =>
      have hbeq : (key == q.2) = false := by simp [hnot.1]
      simp only [List.lookup_cons, hbeq]
      exact ih hnot.2

/-- With pairwise-distinct keys, looking up a pattern's key in the
captured sections yields exactly that pattern's own search result,
whatever the other patterns matched. -/
theorem lookup_filterMap_mem (s : List Char)
    (pats : List (List Char × String)) (p : List Char × String)
    (hp : p ∈ pats) (hnd : (pats.map Prod.snd).Nodup) :
    List.lookup p.2 (pats.filterMap (fun p =>
      match reSearch p.1 s with
      | some cap => some (p.2, pyStrip cap)
      | none => none))
      = match reSearch p.1 s with
        | some cap => some (pyStrip cap)
        | none => none := by
  induction pats with
  | nil => cases hp
  | cons q rest ih =>
    simp only [List.map_cons, List.nodup_cons] at hnd
    rw [List.filterMap_cons]
    rcases List.mem_cons.mp hp with rfl | hp2
    · cases hq : reSearch p.1 s with
      | none => exact lookup_filterMap_none p.2 s rest hnd.1
      | some cap =>
        simp [List.lookup_cons]
    · have hne : p.2 ≠ q.2 := by
        intro hcontra
        exact hnd.1 (hcontra ▸ List.mem_map_of_mem Prod.snd hp2)
      cases hq : reSearch q.1 s with
      | none => exact ih hp2 hnd.2
      | some cap =>
        have hbeq : (p.2 == q.2) = false := by simp [hne]
        simp only [List.lookup_cons, hbeq]
        exact ih hp2 hnd.2

/-- Looking up any of the five keys in `extract_readme_sections` yields
that pattern's own stripped capture. -/
theorem lookup_extract (s : List Char) (hs : s ≠ [])
    (p : List Char × String) (hp : p ∈ section_patterns) :
    List.lookup p.2 (extract_readme_sections s)
      = match reSearch p.1 s with
        | some cap => some (pyStrip cap)
        | none => none := by
  rw [extract_readme_sections, if_neg hs]
  exact lookup_filterMap_mem s section_patterns p hp (by decide)

/-- Claim C8 amended: for each of the five case-sensitive heading
patterns, the capture starts immediately after the maximal whitespace run
following the matched heading and terminates at the next occurrence of the
two-character sequence `##` anywhere — which includes deeper headings such
as `###` and inline `##` — or at end of document, trimmed of surrounding
whitespace.  Stated for an arbitrary document position of the heading (no
anchored match in the prefix before it): a body containing no `##` and not
ending in `#`, followed by `##` and arbitrary material, is captured
exactly up to that `##`; a body containing no `##` at all is captured
whole; and a document containing none of the five heading literals yields
an empty mapping. -/
theorem C8_amended :
    (∀ p ∈ section_patterns, ∀ (pre : List Char) (c : Char) (body mid : List Char),
      noMatchIn p.1 pre (p.1 ++ c :: (body ++ '#' :: '#' :: mid)) = true →
      pyIsSpace c = true →
      hasHH (body ++ ['#']) = false →
      List.lookup p.2 (extract_readme_sections
          (pre ++ (p.1 ++ c :: (body ++ '#' :: '#' :: mid))))
        = some (pyStrip body))
    ∧ (∀ p ∈ section_patterns, ∀ (pre : List Char) (c : Char) (body : List Char),
      noMatchIn p.1 pre (p.1 ++ c :: body) = true →
      pyIsSpace c = true →
      hasHH body = false →
      List.lookup p.2 (extract_readme_sections (pre ++ (p.1 ++ c :: body)))
        = some (pyStrip body))
    ∧ (∀ s : List Char, (∀ p ∈ section_patterns, occursIn p.1 s = false) →
        extract_readme_sections s = []) := by
  refine ⟨?_, ?_, ?_⟩
  · intro p hp pre c body mid hnm hc hf
    have hs : pre ++ (p.1 ++ c :: (body ++ '#' :: '#' :: mid)) ≠ [] := by
      simp [List.append_eq_nil]
    rw [lookup_extract _ hs p hp]
    rw [reSearch_append p.1 pre _ hnm]
    rw [reSearch_here _ _ _ (matchCapture_at p.1 c _ hc)]
    rw [dropWhile_append_cons pyIsSpace body '#' ('#' :: mid) (by decide)]
    rw [takeUntilHH_stop (body.dropWhile pyIsSpace) mid
      (hasHH_dropWhile_ap pyIsSpace body ['#'] hf)]
    show some (pyStrip (body.dropWhile pyIsSpace)) = some (pyStrip body)
    rw [pyStrip_dropWhile]
  · intro p hp pre c body hnm hc hf
    have hs : pre ++ (p.1 ++ c :: body) ≠ [] := by
      simp [List.append_eq_nil]
    rw [lookup_extract _ hs p hp]
    rw [reSearch_append p.1 pre _ hnm]
    rw [reSearch_here _ _ _ (matchCapture_at p.1 c _ hc)]
    rw [takeUntilHH_id _ (hasHH_dropWhile pyIsSpace body hf)]
    show some (pyStrip (body.dropWhile pyIsSpace)) = some (pyStrip body)
    rw [pyStrip_dropWhile]
  · intro s hocc
    by_cases hnil : s = []
    · rw [extract_readme_sections, if_pos hnil]
    · rw [extract_readme_sections, if_neg hnil]
      rw [List.filterMap_eq_nil_iff]
      intro p hp
      rw [reSearch_none p.1 s (hocc p hp)]


/-- Witness for C8's amended claim: the Deployment Workflow heading after
an `Intro text` line with body `Step one` terminated by `###` (the
two-character `##` and a further `#`); the Technology Signature heading at
document start with the `##`-free body `Python`; and the heading-free
document `no headings here`. -/
theorem C8_amended_w :
    (("## Deployment Workflow".data, "workflow") ∈ section_patterns
      ∧ noMatchIn "## Deployment Workflow".data "Intro text\n".data
          ("## Deployment Workflow".data ++ '\n'
            :: ("Step one".data ++ '#' :: '#' :: "# Deep\nmore".data)) = true
      ∧ pyIsSpace '\n' = true
      ∧ hasHH ("Step one".data ++ ['#']) = false
      ∧ List.lookup "workflow"
          (extract_readme_sections
            ("Intro text\n".data ++ ("## Deployment Workflow".data ++ '\n'
              :: ("Step one".data ++ '#' :: '#' :: "# Deep\nmore".data))))
        = some (pyStrip "Step one".data))
    ∧ (hasHH "Python".data = false
      ∧ List.lookup "tech_stack"
          (extract_readme_sections
            (([] : List Char)
              ++ ("## Technology Signature".data ++ '\n' :: "Python".data)))
        = some (pyStrip "Python".data))
    ∧ ((∀ p ∈ section_patterns, occursIn p.1 "no headings here".data = false)
      ∧ extract_readme_sections "no headings here".data = []) :=
  ⟨⟨by decide, by decide, by decide, by decide,
    C8_amended.1 ("## Deployment Workflow".data, "workflow") (by decide)
      "Intro text\n".data '\n' "Step one".data "# Deep\nmore".data
      (by decide) (by decide) (by decide)⟩,
   ⟨by decide,
    C8_amended.2.1 ("## Technology Signature".data, "tech_stack") (by decide)
      [] '\n' "Python".data (by decide) (by decide) (by decide)⟩,
   ⟨by decide, C8_amended.2.2 "no headings here".data (by decide)⟩⟩

/-- Witness for C9's amended claim: the instantiation at the short section
text `ab` and skills text `sk`. -/
theorem C9_amended_w :
    (generate_enhanced_context
        [{ name := "r", description := "d", languages := [], topics := [],
           readme_sections := [("tech_stack", "ab")],
           metadata := ⟨none, some "sk", none⟩ }]).data
      = "Repository: r\nDescription: d\n\nTech Stack:\n".data
          ++ "ab".data.take 500
          ++ "...\n\nMetadata:\n\nSkills: ".data
          ++ "sk".data.take 300 ++ "...\n".data :=
  C9_amended "ab" "sk"

end Portfolio
